import Mathlib

/-!
Shallow embedding of the close-price resolution engine of
`scripts/add_close_prices_tw.py` (the "SC" revision) and
`.github/scripts/add_close_prices_tw.py` (the "GH" revision).

Conventions of the embedding:
* Python strings are Lean `String`s; character-level helpers work on
  `List Char` so that proofs stay elementary.
* Python `float` close prices are modelled as `Rat`: the scripts never do
  arithmetic on prices, they only parse and store them, and the claims under
  study only depend on whether a parse succeeds.  `pyFloat` models the
  fragment of Python `float(...)` exercised by the data (optional sign,
  decimal digits, optional decimal point); `pyInt` likewise models `int(...)`.
* `datetime.date` values are a `Date` structure (proleptic Gregorian,
  unbounded year).  The scripts key maps by `date().isoformat()`, which is
  injective on dates, so the `Date` value itself serves as the key.
* HTTP interactions are an explicit environment (`SourceEnv`): for each
  query the environment fixes the outcome (network error, or a status code
  together with the parsed body).  Library parsers whose exceptions both
  revisions swallow (`dateutil.parser.parse`, `pandas.read_csv`) appear as
  environment-supplied oracles.
* Python exceptions that can escape a function are modelled with
  `Except PyErr`; functions that swallow every exception are plain functions
  returning `Option`.
-/

/-! ### Character and string helpers (models of Python `str` methods) -/

/-- Whitespace recognised by the model of Python `str.strip()`. -/
def isSpaceChar (c : Char) : Bool :=
  c == ' ' || c == '\t' || c == '\n' || c == '\r'

/-- Model of Python `str.strip()` on a character list. -/
def pyStripL (l : List Char) : List Char :=
  ((l.dropWhile isSpaceChar).reverse.dropWhile isSpaceChar).reverse

/-- Split a character list on every occurrence of `c` (Python `str.split(sep)`). -/
def splitOnCharL (c : Char) : List Char → List (List Char)
  | [] => [[]]
  | x :: xs =>
    match splitOnCharL c xs with
    | [] => [[]]
    | h :: t => if x = c then [] :: h :: t else (x :: h) :: t

/-- Total list indexing with a default (`row[i]` on rows of known length;
a local definition so that proofs can treat it atomically). -/
def listGetD {A : Type} : List A → Nat → A → A
  | [], _, dflt => dflt
  | a :: _, 0, _ => a
  | _ :: t, n + 1, dflt => listGetD t n dflt

/-- Fuel-driven worker for `replaceAllL`; the fuel is the input length. -/
def replaceFuel (pat rep : List Char) : Nat → List Char → List Char
  | _, [] => []
  | 0, l => l
  | f + 1, c :: rest =>
    if pat.isPrefixOf (c :: rest) then
      rep ++ replaceFuel pat rep f ((c :: rest).drop pat.length)
    else
      c :: replaceFuel pat rep f rest

/-- Model of Python `str.replace(pat, rep)` (all occurrences, left to right).
The scripts only call it with nonempty literal patterns. -/
def replaceAllL (pat rep l : List Char) : List Char :=
  if pat.isEmpty then l else replaceFuel pat rep l.length l

/-- Left-pad a character list with zeros to width `k` (Python `str.zfill`). -/
def zfillL (k : Nat) (l : List Char) : List Char :=
  if k ≤ l.length then l else List.replicate (k - l.length) '0' ++ l

/-- Digit-string value: `foldl (10*acc + digit)`. -/
def valOfDigits (l : List Char) : Nat :=
  l.foldl (fun a c => 10 * a + (c.toNat - 48)) 0

/-- All characters are decimal digits and the list is nonempty
(Python `str.isdigit()` on ASCII data). -/
def isDigitsL (l : List Char) : Bool :=
  !l.isEmpty && l.all (·.isDigit)

/-- Model of Python `int(s)` restricted to the fragment the data exercises:
optional surrounding whitespace, optional single sign, decimal digits. -/
def pyIntL (l : List Char) : Option Int :=
  let t := pyStripL l
  let sg : Bool × List Char :=
    match t with
    | c :: rest => if c = '-' then (true, rest) else if c = '+' then (false, rest) else (false, t)
    | [] => (false, t)
  if isDigitsL sg.2 then
    some (if sg.1 then -(valOfDigits sg.2 : Int) else (valOfDigits sg.2 : Int))
  else none

def pyInt (s : String) : Option Int := pyIntL s.toList

/-- Model of Python `float(s)` restricted to the fragment the data exercises:
optional surrounding whitespace, optional single sign, `digits`,
`digits.digits`, `digits.` or `.digits`. -/
def pyFloatL (l : List Char) : Option Rat :=
  let t := pyStripL l
  let sg : Bool × List Char :=
    match t with
    | c :: rest => if c = '-' then (true, rest) else if c = '+' then (false, rest) else (false, t)
    | [] => (false, t)
  let signed : Rat → Rat := fun q => if sg.1 then -q else q
  match splitOnCharL '.' sg.2 with
  | [a] => if isDigitsL a then some (signed (mkRat (Int.ofNat (valOfDigits a)) 1)) else none
  | [a, b] =>
    if a.all (·.isDigit) && b.all (·.isDigit) && (!a.isEmpty || !b.isEmpty) then
      some (signed (mkRat (Int.ofNat (valOfDigits a * 10 ^ b.length + valOfDigits b))
                          (10 ^ b.length)))
    else none
  | _ => none

def pyFloat (s : String) : Option Rat := pyFloatL s.toList

/-- Little-endian decimal digits, driven by a fuel argument so that the
kernel can evaluate it (`Nat.digits` itself is well-founded recursion). -/
def digitsFuel : Nat → Nat → List Nat
  | 0, _ => []
  | _ + 1, 0 => []
  | f + 1, n + 1 => (n + 1) % 10 :: digitsFuel f ((n + 1) / 10)

theorem digitsFuel_eq (f : Nat) : ∀ n, n ≤ f → digitsFuel f n = Nat.digits 10 n := by
  induction f with
  | zero => intro n hn; interval_cases n; simp [digitsFuel]
  | succ k ih =>
    intro n hn
    match n with
    | 0 => simp [digitsFuel]
    | m + 1 =>
      rw [digitsFuel, Nat.digits_def' (by norm_num : 1 < 10) (Nat.succ_pos m)]
      congr 1
      exact ih _ (Nat.le_trans (Nat.le_of_lt_succ (Nat.div_lt_self (Nat.succ_pos m) (by norm_num)))
        (Nat.le_of_succ_le_succ hn))

/-- Decimal digit string of a natural number (empty for `0`, like the digit
list of `Nat.digits`; the scripts only format positive values, and `zfill`
pads the empty case to `"000"` exactly as Python `"%03d" % 0` would). -/
def natDigitsStr (n : Nat) : List Char :=
  ((digitsFuel n n).reverse.map Nat.digitChar)

theorem natDigitsStr_eq (n : Nat) :
    natDigitsStr n = ((Nat.digits 10 n).reverse.map Nat.digitChar) := by
  rw [natDigitsStr, digitsFuel_eq n n (Nat.le_refl n)]

/-! ### `_ensure_code` (identical in both revisions) -/

/-- `_ensure_code`: strip, drop `.TW` then `.TWO`, zero-pad numeric codes to
width 4.  Note it normalises but never rejects: non-numeric strings are
returned unchanged. -/
def ensure_code (s : String) : String :=
  let t := pyStripL s.toList
  let t := replaceAllL ".TW".toList [] t
  let t := replaceAllL ".TWO".toList [] t
  if isDigitsL t then (zfillL 4 t).asString else t.asString

/-! ### Dates -/

/-- A proleptic Gregorian calendar date (`datetime.date`). -/
structure Date where
  year : Int
  month : Nat
  day : Nat
deriving DecidableEq, Repr

def isLeapYear (y : Int) : Bool :=
  y % 4 == 0 && (y % 100 != 0 || y % 400 == 0)

def daysInMonth (y : Int) (m : Nat) : Nat :=
  if m = 2 then (if isLeapYear y then 29 else 28)
  else if m = 4 ∨ m = 6 ∨ m = 9 ∨ m = 11 then 30
  else 31

/-- `datetime(y, m, d)` validation: raises `ValueError` (here: `none`) unless
`1 ≤ y ≤ 9999`, `1 ≤ m ≤ 12` and `1 ≤ d ≤ daysInMonth`. -/
def mkDate? (y m d : Int) : Option Date :=
  if 1 ≤ y ∧ y ≤ 9999 ∧ 1 ≤ m ∧ m ≤ 12 ∧ 1 ≤ d ∧ d ≤ (daysInMonth y m.toNat : Int) then
    some ⟨y, m.toNat, d.toNat⟩
  else none

/-- The previous calendar day (`date - timedelta(days=1)`). -/
def predDate (d : Date) : Date :=
  if 1 < d.day then ⟨d.year, d.month, d.day - 1⟩
  else if 1 < d.month then ⟨d.year, d.month - 1, daysInMonth d.year (d.month - 1)⟩
  else ⟨d.year - 1, 12, 31⟩

/-- `target - timedelta(days = i)`. -/
def backDay : Nat → Date → Date
  | 0, d => d
  | n + 1, d => predDate (backDay n d)

theorem backDay_predDate (n : Nat) (d : Date) :
    backDay n (predDate d) = predDate (backDay n d) := by
  induction n with
  | zero => rfl
  | succ k ih => simp [backDay, ih]

/-- Minguo year adjustment used by `parse_twse_close_map` in both revisions:
a year below 1911 is taken as Minguo and shifted by 1911. -/
def twseYearAdjust (y : Int) : Int :=
  if y < 1911 then y + 1911 else y

/-- `"%03d"`-formatting of an integer (total width 3, zero padded). -/
def pyFmt03 (n : Int) : String :=
  if n < 0 then ("-".toList ++ zfillL 2 (natDigitsStr (-n).toNat)).asString
  else (zfillL 3 (natDigitsStr n.toNat)).asString

/-- `"%02d"`-formatting of a natural number. -/
def pyFmt02 (n : Nat) : String := (zfillL 2 (natDigitsStr n)).asString

/-- The Minguo-form query string built by `fetch_tpex_daily_csv`:
`f"{year-1911:03d}/{month:02d}/{day:02d}"`. -/
def tpexDateParam (d : Date) : String :=
  pyFmt03 (d.year - 1911) ++ "/" ++ pyFmt02 d.month ++ "/" ++ pyFmt02 d.day

/-! ### Association-list maps (Python `dict` as used by the scripts) -/

/-- Python `d[k]`-style lookup (`k in d` iff the result is `some`). -/
def alookup {α β : Type} [DecidableEq α] : List (α × β) → α → Option β
  | [], _ => none
  | (a, b) :: t, k => if a = k then some b else alookup t k

/-- Python `d[k] = v`: overwrite in place, append when the key is new. -/
def dinsert {α β : Type} [DecidableEq α] : List (α × β) → α → β → List (α × β)
  | [], k, v => [(k, v)]
  | (a, b) :: t, k, v => if a = k then (k, v) :: t else (a, b) :: dinsert t k v

theorem alookup_dinsert_self {α β : Type} [DecidableEq α]
    (l : List (α × β)) (k : α) (v : β) : alookup (dinsert l k v) k = some v := by
  induction l with
  | nil => simp [dinsert, alookup]
  | cons p t ih =>
    obtain ⟨a, b⟩ := p
    by_cases h : a = k <;> simp [dinsert, alookup, h, ih]

theorem alookup_dinsert_ne {α β : Type} [DecidableEq α]
    (l : List (α × β)) (k x : α) (v : β) (hx : x ≠ k) :
    alookup (dinsert l k v) x = alookup l x := by
  have hkx : ¬k = x := fun h => hx h.symm
  induction l with
  | nil => simp [dinsert, alookup, hkx]
  | cons p t ih =>
    obtain ⟨a, b⟩ := p
    by_cases h : a = k
    · subst h
      simp [dinsert, alookup, hkx]
    · by_cases h2 : a = x
      · subst h2
        simp [dinsert, alookup, h, hkx]
      · simp [dinsert, alookup, h, h2, ih]

theorem length_dinsert_new {α β : Type} [DecidableEq α]
    (l : List (α × β)) (k : α) (v : β) (h : alookup l k = none) :
    (dinsert l k v).length = l.length + 1 := by
  induction l with
  | nil => simp [dinsert]
  | cons p t ih =>
    obtain ⟨a, b⟩ := p
    by_cases hk : a = k
    · simp [alookup, hk] at h
    · simp [alookup, hk] at h
      simp [dinsert, hk, ih h]

/-! ### Wire-format data model -/

/-- Parsed JSON body of a TWSE `STOCK_DAY` response, restricted to the fields
the scripts read: a `stat` string (possibly absent) and a `data` array of
rows of string fields. -/
structure TwseJson where
  stat : Option String
  data : List (List String)
deriving DecidableEq, Repr

/-- A minimal `pandas.DataFrame`: column names plus rows of string cells. -/
structure DataFrame where
  cols : List String
  rows : List (List String)
deriving DecidableEq, Repr

/-- Outcome of one TWSE HTTP GET: either `requests.get` raised, or the
request produced a status code and (when the body is well-formed JSON of the
expected shape) a parsed body; `none` means `resp.json()` would raise. -/
inductive AResp where
  | netErr
  | status (code : Nat) (body : Option TwseJson)
deriving DecidableEq, Repr

/-- Outcome of one TPEx HTTP GET: either `requests.get` raised, or a status
code with the body text and the `pandas.read_csv` result (`none` means
`read_csv` would raise). -/
inductive BResp where
  | netErr
  | status (code : Nat) (text : String) (csv : Option DataFrame)
deriving DecidableEq, Repr

/-- Python exceptions that can escape the GH revision. -/
inductive PyErr where
  | connectionError
  | jsonDecodeError
  | valueError
deriving DecidableEq, Repr

/-- The external world for one batch: the response every (code, day) TWSE
query would receive, the `dateutil.parser.parse` oracle used for non-`Y/M/D`
date strings (its exceptions are swallowed by both revisions, hence
`Option`), and the response every TPEx daily query would receive. -/
structure SourceEnv where
  aResp : String → Date → AResp
  fb : List Char → Option Date
  bResp : Date → BResp

/-! ### SourceA client, SC revision (`scripts/add_close_prices_tw.py`) -/

/-- SC `fetch_twse_month_json`: the whole body is inside `try/except`, so
every failure (network error, non-200, malformed JSON) collapses to `None`;
a response is returned only when its `data` is truthy (nonempty). -/
def fetch_twse_month_json (env : SourceEnv) (stock_no : String) (any_day : Date) :
    Option TwseJson :=
  match env.aResp stock_no any_day with
  | .netErr => none
  | .status c body =>
    if c ≠ 200 then none
    else
      match body with
      | none => none
      | some js => if js.data ≠ [] then some js else none

/-- Date parse of one TWSE row (SC revision): split on `/`; three fields are
parsed as integers with the Minguo adjustment and validated by `datetime`;
anything else goes to the `dateutil` fallback.  All failures are swallowed
by the enclosing `try/except` and yield `none`. -/
def parseRowDate (fb : List Char → Option Date) (raw : List Char) : Option Date :=
  let parts := splitOnCharL '/' raw
  if parts.length = 3 then
    match pyIntL (listGetD parts 0 []), pyIntL (listGetD parts 1 []),
          pyIntL (listGetD parts 2 []) with
    | some y, some m, some d => mkDate? (twseYearAdjust y) m d
    | _, _, _ => none
  else fb raw

/-- The (date, close) entry contributed by one TWSE row in the SC revision,
`none` when the row is dropped (fewer than 7 fields, unparsable date,
unparsable close price). -/
def rowEntry (fb : List Char → Option Date) (row : List String) : Option (Date × Rat) :=
  if row.length < 7 then none
  else
    match parseRowDate fb (pyStripL (listGetD row 0 "").toList) with
    | none => none
    | some dt =>
      match pyFloatL (pyStripL (replaceAllL ",".toList [] (listGetD row 6 "").toList)) with
      | none => none
      | some close => some (dt, close)

/-- One fold step of SC `parse_twse_close_map`: insert the row's entry when
the row survives, keep the table otherwise. -/
def twseRowFold (fb : List Char → Option Date) (out : List (Date × Rat))
    (row : List String) : List (Date × Rat) :=
  match rowEntry fb row with
  | some (k, v) => dinsert out k v
  | none => out

/-- SC `parse_twse_close_map`: fold the rows into a date-keyed dict,
silently dropping malformed rows. -/
def parse_twse_close_map (fb : List Char → Option Date) (js : TwseJson) :
    List (Date × Rat) :=
  js.data.foldl (twseRowFold fb) []

/-! ### SourceA client, GH revision (`.github/scripts/add_close_prices_tw.py`) -/

/-- Truthiness of `js.get("stat") and "OK" in js.get("stat")`. -/
def statOK (js : TwseJson) : Bool :=
  match js.stat with
  | some s => !s.isEmpty && (s.splitOn "OK").length != 1
  | none => false

/-- GH `fetch_twse_month_json`: **no** `try/except`.  A network error or a
malformed JSON body on a 200 response escapes as an exception; a non-200
returns `None` (the status is checked before `resp.json()`).  A body whose
`stat` contains `"OK"` is returned even when `data` is empty. -/
def gh_fetch_twse_month_json (env : SourceEnv) (stock_no : String) (any_day : Date) :
    Except PyErr (Option TwseJson) :=
  match env.aResp stock_no any_day with
  | .netErr => .error .connectionError
  | .status c body =>
    if c ≠ 200 then .ok none
    else
      match body with
      | none => .error .jsonDecodeError
      | some js =>
        if statOK js then .ok (some js)
        else if js.data ≠ [] then .ok (some js) else .ok none

/-- Date parse of one TWSE row (GH revision): `int(parts[0])` sits **outside**
the `try`, so a three-field date whose year is not an integer raises
`ValueError`; the month/day parses and `datetime` validation are inside a
`try` and merely skip the row. -/
def gh_rowDate (fb : List Char → Option Date) (raw : List Char) :
    Except PyErr (Option Date) :=
  let parts := splitOnCharL '/' raw
  if parts.length = 3 then
    match pyIntL (listGetD parts 0 []) with
    | none => .error .valueError
    | some y =>
      .ok (match pyIntL (listGetD parts 1 []), pyIntL (listGetD parts 2 []) with
           | some m, some d => mkDate? (twseYearAdjust y) m d
           | _, _ => none)
  else .ok (fb raw)

/-- The entry contributed by one TWSE row in the GH revision. -/
def gh_rowEntry (fb : List Char → Option Date) (row : List String) :
    Except PyErr (Option (Date × Rat)) :=
  if row.length < 7 then .ok none
  else
    match gh_rowDate fb (pyStripL (listGetD row 0 "").toList) with
    | .error e => .error e
    | .ok none => .ok none
    | .ok (some dt) =>
      .ok (match pyFloatL (pyStripL (replaceAllL ",".toList [] (listGetD row 6 "").toList)) with
           | none => none
           | some close => some (dt, close))

/-- Row-fold worker of GH `parse_twse_close_map`. -/
def gh_parseRows (fb : List Char → Option Date) :
    List (List String) → List (Date × Rat) → Except PyErr (List (Date × Rat))
  | [], out => .ok out
  | row :: rest, out =>
    match gh_rowEntry fb row with
    | .error e => .error e
    | .ok (some (k, v)) => gh_parseRows fb rest (dinsert out k v)
    | .ok none => gh_parseRows fb rest out

/-- GH `parse_twse_close_map`. -/
def gh_parse_twse_close_map (fb : List Char → Option Date) (js : TwseJson) :
    Except PyErr (List (Date × Rat)) :=
  gh_parseRows fb js.data []

/-! ### SourceB client (identical logic in both revisions) -/

/-- `fetch_tpex_daily_csv`: the whole body sits in `try/except`, so network
errors, non-200 statuses, a blank body and `read_csv` failures all collapse
to `None`; on success the column names are stripped of whitespace.  The
query parameter sent on the wire is `tpexDateParam date_dt`. -/
def fetch_tpex_daily_csv (env : SourceEnv) (date_dt : Date) : Option DataFrame :=
  match env.bResp date_dt with
  | .netErr => none
  | .status c text csv =>
    if c ≠ 200 ∨ pyStripL text.toList = [] then none
    else
      match csv with
      | none => none
      | some df => some { df with cols := df.cols.map (fun s => (pyStripL s.toList).asString) }

def codeAliases : List String := ["證券代號", "代號", "Code", "Symbol"]

def closeAliases : List String := ["收盤", "收盤價", "Closing Price", "Close"]

/-- First alias present among the column names (`for c in [...]: if c in df.columns`). -/
def firstPresent (cols : List String) : List String → Option String
  | [] => none
  | c :: rest => if c ∈ cols then some c else firstPresent cols rest

/-- Index of a column name (`row[col]` accesses the cell at that position). -/
def colIndex (cols : List String) (c : String) : Option Nat :=
  cols.indexOf? c

/-- The string cell of `row` in the column named `c`. -/
def cellAt (cols : List String) (row : List String) (c : String) : String :=
  match colIndex cols c with
  | some i => listGetD row i ""
  | none => ""

/-- A code → close-price snapshot for one day.  `build_tpex_code_close_map`:
locate the code and close columns by alias lists; for each row, normalise
the code with `_ensure_code` (note: a non-numeric code is **kept**, only
normalised) and keep the row iff its close price parses as a float. -/
def tpexRowFold (cols : List String) (code_col close_col : String)
    (out : List (String × Rat)) (row : List String) : List (String × Rat) :=
  let code := ensure_code (cellAt cols row code_col)
  match pyFloatL (pyStripL (replaceAllL ",".toList [] (cellAt cols row close_col).toList)) with
  | some close => dinsert out code close
  | none => out

def build_tpex_code_close_map (df : DataFrame) : List (String × Rat) :=
  match firstPresent df.cols codeAliases, firstPresent df.cols closeAliases with
  | some code_col, some close_col =>
    df.rows.foldl (tpexRowFold df.cols code_col close_col) []
  | _, _ => []

/-! ### The resolver (`get_close_price_for_code`), SC revision -/

abbrev Snapshot := List (String × Rat)

abbrev Cache := List (Date × Snapshot)

/-- The daily snapshot obtained when the resolver has to go to the network:
`build_tpex_code_close_map(df) if df is not None else {}`. -/
def snapB (env : SourceEnv) (d : Date) : Snapshot :=
  match fetch_tpex_daily_csv env d with
  | some df => build_tpex_code_close_map df
  | none => []

/-- The monthly close table the SC resolver sees for `(code, day)`:
`parse_twse_close_map(js)` when the fetch yields a truthy response, the
empty table otherwise. -/
def monthTable (env : SourceEnv) (code : String) (d : Date) : List (Date × Rat) :=
  match fetch_twse_month_json env code d with
  | some js => parse_twse_close_map env.fb js
  | none => []

/-- Result of the cache consultation step. -/
structure FetchStep where
  snap : Snapshot
  cache : Cache
  fetched : Bool
deriving DecidableEq, Repr

/-- The cache step shared by both revisions:
`if dkey not in tpex_cache: tpex_cache[dkey] = build(...) if df is not None else {}`
followed by `tpex_cache.get(dkey, {})`.  `fetched` records whether the HTTP
fetch was issued. -/
def getOrFetch (env : SourceEnv) (cache : Cache) (day : Date) : FetchStep :=
  let cache2 := if (alookup cache day).isSome then cache
                else dinsert cache day (snapB env day)
  { snap := (alookup cache2 day).getD []
    cache := cache2
    fetched := (alookup cache day).isNone }

/-- Instrumented result of one resolver call: the returned pair, the final
cache, the days inspected in order, and the days for which a SourceB HTTP
fetch was issued, in order. -/
structure RunResult where
  price : Option Rat
  asOf : Option Date
  cache : Cache
  inspected : List Date
  bFetched : List Date
deriving DecidableEq, Repr

/-- The backfill loop of the SC revision, by remaining iteration count:
at each day, consult TWSE first, then the cached TPEx snapshot, then move
to the previous day. -/
def loopAux (env : SourceEnv) (code : String) : Nat → Date → Cache → RunResult
  | 0, _, cache => ⟨none, none, cache, [], []⟩
  | n + 1, day, cache =>
    match alookup (monthTable env code day) day with
    | some p => ⟨some p, some day, cache, [day], []⟩
    | none =>
      let g := getOrFetch env cache day
      match alookup g.snap code with
      | some p => ⟨some p, some day, g.cache, [day], if g.fetched then [day] else []⟩
      | none =>
        let r := loopAux env code n (predDate day) g.cache
        ⟨r.price, r.asOf, r.cache, day :: r.inspected,
         (if g.fetched then [day] else []) ++ r.bFetched⟩

/-- SC `get_close_price_for_code`: normalise the code, then run the loop
over `range(max_backdays + 1)` starting at the target date. -/
def get_close_price_for_code (env : SourceEnv) (code : String) (target_date : Date)
    (max_backdays : Nat) (tpex_cache : Cache) : RunResult :=
  loopAux env (ensure_code code) (max_backdays + 1) target_date tpex_cache

/-! ### The resolver, GH revision -/

/-- The TWSE consultation of one GH loop iteration:
`twse_json = fetch(...); if twse_json: m = parse(...); if dkey in m: ...` —
the propagated exceptions are those of the fetch and of the row parses. -/
def gh_aLookup (env : SourceEnv) (code : String) (day : Date) :
    Except PyErr (Option Rat) :=
  match gh_fetch_twse_month_json env code day with
  | .error e => .error e
  | .ok (some js) =>
    match gh_parse_twse_close_map env.fb js with
    | .error e => .error e
    | .ok m => .ok (alookup m day)
  | .ok none => .ok none

/-- The backfill loop of the GH revision: identical control flow, but the
TWSE fetch and row parsing can raise, and the fetch also succeeds on a
`stat`-OK body with empty data. -/
def gh_loopAux (env : SourceEnv) (code : String) :
    Nat → Date → Cache → Except PyErr RunResult
  | 0, _, cache => .ok ⟨none, none, cache, [], []⟩
  | n + 1, day, cache =>
      match gh_aLookup env code day with
      | .error e => .error e
      | .ok (some p) => .ok ⟨some p, some day, cache, [day], []⟩
      | .ok none =>
        let g := getOrFetch env cache day
        match alookup g.snap code with
        | some p => .ok ⟨some p, some day, g.cache, [day], if g.fetched then [day] else []⟩
        | none =>
          match gh_loopAux env code n (predDate day) g.cache with
          | .error e => .error e
          | .ok r =>
            .ok ⟨r.price, r.asOf, r.cache, day :: r.inspected,
                 (if g.fetched then [day] else []) ++ r.bFetched⟩

/-- GH `get_close_price_for_code`. -/
def gh_get_close_price_for_code (env : SourceEnv) (code : String) (target_date : Date)
    (max_backdays : Nat) (tpex_cache : Cache) : Except PyErr RunResult :=
  gh_loopAux env (ensure_code code) (max_backdays + 1) target_date tpex_cache

/-! ### The caller's fill step (`process_csv`) -/

/-- One row of `process_csv`'s fill loop, common to both revisions:
when the resolver returned a price, write it iff the cell is NA or
`--overwrite-same-day` was passed; note that `got_date` and the target date
play no role in the decision.  Returns the new cell value and whether the
cell changed. -/
def fill_step (overwrite_same_day : Bool) (old_val : Option Rat)
    (price : Option Rat) (got_date : Option Date) (target : Date) :
    Option Rat × Bool :=
  match price with
  | some p =>
    if old_val.isNone || overwrite_same_day then (some p, true) else (old_val, false)
  | none => (old_val, false)

/-! ### Cache-step lemmas -/

/-- The snapshot the resolver effectively consults for `d` when the batch
cache is `c`: the stored one when present, else the one a fresh fetch
would produce. -/
def effSnap (env : SourceEnv) (c : Cache) (d : Date) : Snapshot :=
  (alookup c d).getD (snapB env d)

theorem getOrFetch_of_mem (env : SourceEnv) (cache : Cache) (day : Date) (s : Snapshot)
    (h : alookup cache day = some s) :
    getOrFetch env cache day = ⟨s, cache, false⟩ := by
  simp [getOrFetch, h]

theorem getOrFetch_of_not_mem (env : SourceEnv) (cache : Cache) (day : Date)
    (h : alookup cache day = none) :
    getOrFetch env cache day = ⟨snapB env day, dinsert cache day (snapB env day), true⟩ := by
  simp [getOrFetch, h, alookup_dinsert_self]

theorem getOrFetch_snap (env : SourceEnv) (cache : Cache) (day : Date) :
    (getOrFetch env cache day).snap = effSnap env cache day := by
  cases h : alookup cache day with
  | some s => simp [getOrFetch_of_mem env cache day s h, effSnap, h]
  | none => simp [getOrFetch_of_not_mem env cache day h, effSnap, h]

theorem effSnap_getOrFetch (env : SourceEnv) (cache : Cache) (day x : Date) :
    effSnap env (getOrFetch env cache day).cache x = effSnap env cache x := by
  cases h : alookup cache day with
  | some s => simp [getOrFetch_of_mem env cache day s h]
  | none =>
    rw [getOrFetch_of_not_mem env cache day h]
    by_cases hx : x = day
    · subst hx
      simp [effSnap, alookup_dinsert_self, h]
    · simp [effSnap, alookup_dinsert_ne _ _ _ _ hx]

theorem alookup_getOrFetch_of_some (env : SourceEnv) (cache : Cache) (day x : Date)
    (s : Snapshot) (h : alookup cache x = some s) :
    alookup (getOrFetch env cache day).cache x = some s := by
  cases hd : alookup cache day with
  | some t => simp [getOrFetch_of_mem env cache day t hd, h]
  | none =>
    rw [getOrFetch_of_not_mem env cache day hd]
    by_cases hx : x = day
    · subst hx
      rw [h] at hd
      cases hd
    · rw [alookup_dinsert_ne _ _ _ _ hx]
      exact h

theorem alookup_getOrFetch_day (env : SourceEnv) (cache : Cache) (day : Date) :
    alookup (getOrFetch env cache day).cache day = some (effSnap env cache day) := by
  cases h : alookup cache day with
  | some s => simp [getOrFetch_of_mem env cache day s h, h, effSnap]
  | none => simp [getOrFetch_of_not_mem env cache day h, alookup_dinsert_self, effSnap, h]

theorem getOrFetch_fetched (env : SourceEnv) (cache : Cache) (day : Date) :
    (getOrFetch env cache day).fetched = (alookup cache day).isNone := rfl

/-! ### Backfill-loop lemmas, SC revision -/

theorem range_map_backDay (k : Nat) (d : Date) :
    (List.range (k + 1)).map (fun i => backDay i d)
      = d :: (List.range k).map (fun i => backDay i (predDate d)) := by
  rw [List.range_succ_eq_map]
  simp only [List.map_cons, List.map_map]
  refine List.cons_eq_cons.mpr ⟨rfl, ?_⟩
  apply List.map_congr_left
  intro i _
  simp [Function.comp, backDay, backDay_predDate]

theorem loop_ahit (env : SourceEnv) (code : String) (n : Nat) (d : Date) (c : Cache)
    (p : Rat) (h : alookup (monthTable env code d) d = some p) :
    loopAux env code (n + 1) d c = ⟨some p, some d, c, [d], []⟩ := by
  rw [loopAux, h]

/-- Every run inspects a prefix `target-0 .. target-(k-1)` of the day
sequence, for some `k` bounded by the iteration count. -/
theorem loop_trace (env : SourceEnv) (code : String) :
    ∀ (n : Nat) (d : Date) (c : Cache),
      ∃ k, k ≤ n ∧ (loopAux env code n d c).inspected
        = (List.range k).map (fun i => backDay i d) := by
  intro n
  induction n with
  | zero => intro d c; exact ⟨0, Nat.le_refl 0, rfl⟩
  | succ m ih =>
    intro d c
    cases hA : alookup (monthTable env code d) d with
    | some p =>
      refine ⟨1, Nat.succ_le_succ (Nat.zero_le m), ?_⟩
      simp [loopAux, hA, List.range_succ, backDay]
    | none =>
      cases hB : alookup (getOrFetch env c d).snap code with
      | some p =>
        refine ⟨1, Nat.succ_le_succ (Nat.zero_le m), ?_⟩
        simp [loopAux, hA, hB, List.range_succ, backDay]
      | none =>
        obtain ⟨k, hk, hins⟩ := ih (predDate d) (getOrFetch env c d).cache
        refine ⟨k + 1, Nat.succ_le_succ hk, ?_⟩
        simp only [loopAux, hA, hB, hins, range_map_backDay]

/-- When neither source has data for any of the `n` inspected days, the run
returns `(None, None)` after inspecting all of them in order. -/
theorem loop_exhaust (env : SourceEnv) (code : String) :
    ∀ (n : Nat) (d : Date) (c : Cache),
      (∀ i, i < n → alookup (monthTable env code (backDay i d)) (backDay i d) = none
                  ∧ alookup (effSnap env c (backDay i d)) code = none) →
      (loopAux env code n d c).price = none
      ∧ (loopAux env code n d c).asOf = none
      ∧ (loopAux env code n d c).inspected = (List.range n).map (fun i => backDay i d) := by
  intro n
  induction n with
  | zero => intro d c _; exact ⟨rfl, rfl, rfl⟩
  | succ m ih =>
    intro d c hmiss
    have h0 := hmiss 0 (Nat.succ_pos m)
    rw [show backDay 0 d = d from rfl] at h0
    have hB : alookup (getOrFetch env c d).snap code = none := by
      rw [getOrFetch_snap]
      exact h0.2
    have hmiss2 : ∀ i, i < m →
        alookup (monthTable env code (backDay i (predDate d))) (backDay i (predDate d)) = none
        ∧ alookup (effSnap env (getOrFetch env c d).cache (backDay i (predDate d))) code
            = none := by
      intro i hi
      have := hmiss (i + 1) (Nat.succ_lt_succ hi)
      rw [show backDay (i + 1) d = backDay i (predDate d) by
            rw [backDay_predDate]; rfl] at this
      exact ⟨this.1, by rw [effSnap_getOrFetch]; exact this.2⟩
    obtain ⟨hp, ha, hins⟩ := ih (predDate d) (getOrFetch env c d).cache hmiss2
    refine ⟨?_, ?_, ?_⟩
    · simp only [loopAux, h0.1, hB]
      exact hp
    · simp only [loopAux, h0.1, hB]
      exact ha
    · simp only [loopAux, h0.1, hB, hins, range_map_backDay]

/-- Skipping lemma: when both sources miss on the first `i` days, the run's
returned pair is that of the run started `i` days back (with some cache that
is consultation-equivalent to the original one). -/
theorem loop_reach (env : SourceEnv) (code : String) :
    ∀ (i n : Nat) (d : Date) (c : Cache), i < n →
      (∀ j, j < i → alookup (monthTable env code (backDay j d)) (backDay j d) = none
                  ∧ alookup (effSnap env c (backDay j d)) code = none) →
      ∃ c2, (∀ x, effSnap env c2 x = effSnap env c x)
        ∧ (loopAux env code n d c).price = (loopAux env code (n - i) (backDay i d) c2).price
        ∧ (loopAux env code n d c).asOf = (loopAux env code (n - i) (backDay i d) c2).asOf := by
  intro i
  induction i with
  | zero => intro n d c _ _; exact ⟨c, fun x => rfl, rfl, rfl⟩
  | succ k ih =>
    intro n d c hn hmiss
    match n, hn with
    | m + 1, hn =>
      have h0 := hmiss 0 (Nat.succ_pos k)
      rw [show backDay 0 d = d from rfl] at h0
      have hB : alookup (getOrFetch env c d).snap code = none := by
        rw [getOrFetch_snap]
        exact h0.2
      have hmiss2 : ∀ j, j < k →
          alookup (monthTable env code (backDay j (predDate d))) (backDay j (predDate d)) = none
          ∧ alookup (effSnap env (getOrFetch env c d).cache (backDay j (predDate d))) code
              = none := by
        intro j hj
        have := hmiss (j + 1) (Nat.succ_lt_succ hj)
        rw [show backDay (j + 1) d = backDay j (predDate d) by
              rw [backDay_predDate]; rfl] at this
        exact ⟨this.1, by rw [effSnap_getOrFetch]; exact this.2⟩
      obtain ⟨c2, hc2, hp, ha⟩ :=
        ih m (predDate d) (getOrFetch env c d).cache (Nat.lt_of_succ_lt_succ hn) hmiss2
      refine ⟨c2, ?_, ?_, ?_⟩
      · intro x
        rw [hc2, effSnap_getOrFetch]
      · simp only [loopAux, h0.1, hB]
        rw [hp]
        rw [show backDay k (predDate d) = backDay (k + 1) d by rw [backDay_predDate]; rfl]
        rw [Nat.succ_sub_succ]
      · simp only [loopAux, h0.1, hB]
        rw [ha]
        rw [show backDay k (predDate d) = backDay (k + 1) d by rw [backDay_predDate]; rfl]
        rw [Nat.succ_sub_succ]

/-- The loop moves past day `i` only after both the TWSE table and the
(cached or fetched) TPEx snapshot missed on day `i`. -/
theorem loop_moveon (env : SourceEnv) (code : String) :
    ∀ (i n : Nat) (d : Date) (c : Cache),
      i + 1 < (loopAux env code n d c).inspected.length →
      alookup (monthTable env code (backDay i d)) (backDay i d) = none
      ∧ alookup (effSnap env c (backDay i d)) code = none := by
  intro i
  induction i with
  | zero =>
    intro n d c hlen
    match n with
    | 0 => simp [loopAux] at hlen
    | m + 1 =>
      cases hA : alookup (monthTable env code d) d with
      | some p => simp [loopAux, hA] at hlen
      | none =>
        cases hB : alookup (getOrFetch env c d).snap code with
        | some p => simp [loopAux, hA, hB] at hlen
        | none =>
          rw [getOrFetch_snap] at hB
          exact ⟨hA, hB⟩
  | succ k ih =>
    intro n d c hlen
    match n with
    | 0 => simp [loopAux] at hlen
    | m + 1 =>
      cases hA : alookup (monthTable env code d) d with
      | some p => simp [loopAux, hA] at hlen
      | none =>
        cases hB : alookup (getOrFetch env c d).snap code with
        | some p => simp [loopAux, hA, hB] at hlen
        | none =>
          have hlen2 : k + 1 <
              (loopAux env code m (predDate d) (getOrFetch env c d).cache).inspected.length := by
            simp only [loopAux, hA, hB, List.length_cons] at hlen
            exact Nat.lt_of_succ_lt_succ hlen
          have := ih m (predDate d) (getOrFetch env c d).cache hlen2
          rw [show backDay k (predDate d) = backDay (k + 1) d by
                rw [backDay_predDate]; rfl] at this
          exact ⟨this.1, by rw [effSnap_getOrFetch] at this; exact this.2⟩

/-- Cache discipline invariant of one run: stored snapshots survive
unchanged, each fetched day was fetched exactly once and was absent from
the entry cache, and every fetched day ends up cached with the snapshot a
fresh fetch produces. -/
theorem loop_cacheinv (env : SourceEnv) (code : String) :
    ∀ (n : Nat) (d : Date) (c : Cache),
      (∀ x s, alookup c x = some s → alookup (loopAux env code n d c).cache x = some s)
      ∧ (loopAux env code n d c).bFetched.Nodup
      ∧ (∀ x, x ∈ (loopAux env code n d c).bFetched → alookup c x = none)
      ∧ (∀ x, x ∈ (loopAux env code n d c).bFetched →
           alookup (loopAux env code n d c).cache x = some (snapB env x)) := by
  intro n
  induction n with
  | zero =>
    intro d c
    exact ⟨fun x s h => h, List.nodup_nil, fun x hx => absurd hx (List.not_mem_nil x),
           fun x hx => absurd hx (List.not_mem_nil x)⟩
  | succ m ih =>
    intro d c
    cases hA : alookup (monthTable env code d) d with
    | some p =>
      simp only [loopAux, hA]
      exact ⟨fun x s h => h, List.nodup_nil, fun x hx => absurd hx (List.not_mem_nil x),
             fun x hx => absurd hx (List.not_mem_nil x)⟩
    | none =>
      have hGmono : ∀ x s, alookup c x = some s →
          alookup (getOrFetch env c d).cache x = some s :=
        fun x s h => alookup_getOrFetch_of_some env c d x s h
      have hFet : ∀ x, x ∈ (if (getOrFetch env c d).fetched then [d] else []) →
          alookup c x = none := by
        intro x hx
        by_cases hf : (getOrFetch env c d).fetched
        · simp [hf] at hx
          rw [hx]
          rw [getOrFetch_fetched] at hf
          exact Option.isNone_iff_eq_none.mp hf
        · simp [hf] at hx
      have hFetCache : ∀ x, x ∈ (if (getOrFetch env c d).fetched then [d] else []) →
          alookup (getOrFetch env c d).cache x = some (snapB env x) := by
        intro x hx
        by_cases hf : (getOrFetch env c d).fetched
        · simp [hf] at hx
          rw [hx]
          have hc : alookup c d = none := by
            rw [getOrFetch_fetched] at hf
            exact Option.isNone_iff_eq_none.mp hf
          rw [alookup_getOrFetch_day]
          simp [effSnap, hc]
        · simp [hf] at hx
      cases hB : alookup (getOrFetch env c d).snap code with
      | some p =>
        simp only [loopAux, hA, hB]
        refine ⟨hGmono, ?_, hFet, hFetCache⟩
        by_cases hf : (getOrFetch env c d).fetched <;> simp [hf]
      | none =>
        obtain ⟨rmono, rnodup, rnew, rcached⟩ := ih (predDate d) (getOrFetch env c d).cache
        simp only [loopAux, hA, hB]
        have hnotmem : d ∉ (loopAux env code m (predDate d) (getOrFetch env c d).cache).bFetched := by
          intro hd
          have := rnew d hd
          rw [alookup_getOrFetch_day] at this
          cases this
        refine ⟨?_, ?_, ?_, ?_⟩
        · intro x s h
          exact rmono x s (hGmono x s h)
        · by_cases hf : (getOrFetch env c d).fetched
          · simp only [hf, if_true, List.singleton_append, List.nodup_cons]
            exact ⟨hnotmem, rnodup⟩
          · simp only [hf, if_false, List.nil_append]
            exact rnodup
        · intro x hx
          rcases List.mem_append.mp hx with hx1 | hx2
          · exact hFet x hx1
          · cases h : alookup c x with
            | none => rfl
            | some s =>
              have := rnew x hx2
              rw [hGmono x s h] at this
              cases this
        · intro x hx
          rcases List.mem_append.mp hx with hx1 | hx2
          · exact rmono x (snapB env x) (hFetCache x hx1)
          · exact rcached x hx2

/-! ### Relating the two revisions -/

/-- A row that does not make the GH parser raise: every row does, except one
with at least 7 fields whose slash-split date has exactly 3 parts and a
non-integer year field. -/
def RowSafe (fb : List Char → Option Date) (row : List String) : Prop :=
  gh_rowEntry fb row ≠ .error .valueError

/-- Per-row: the GH parser either raises `ValueError` or agrees with the SC
parser. -/
theorem gh_rowDate_cases (fb : List Char → Option Date) (raw : List Char) :
    gh_rowDate fb raw = .ok (parseRowDate fb raw)
    ∨ gh_rowDate fb raw = .error .valueError := by
  by_cases h3 : (splitOnCharL '/' raw).length = 3
  · cases h0 : pyIntL (listGetD (splitOnCharL '/' raw) 0 []) with
    | none =>
      right
      simp [gh_rowDate, h3, h0]
    | some y =>
      left
      simp only [gh_rowDate, parseRowDate, h3, if_true, h0]
      cases pyIntL (listGetD (splitOnCharL '/' raw) 1 []) <;>
        cases pyIntL (listGetD (splitOnCharL '/' raw) 2 []) <;> rfl
  · left
    simp [gh_rowDate, parseRowDate, h3]

theorem gh_rowEntry_cases (fb : List Char → Option Date) (row : List String) :
    gh_rowEntry fb row = .ok (rowEntry fb row)
    ∨ gh_rowEntry fb row = .error .valueError := by
  by_cases h7 : row.length < 7
  · left
    unfold gh_rowEntry rowEntry
    rw [if_pos h7, if_pos h7]
  · rcases gh_rowDate_cases fb (pyStripL (listGetD row 0 "").toList) with hok | herr
    · left
      unfold gh_rowEntry rowEntry
      rw [if_neg h7, if_neg h7, hok]
      cases parseRowDate fb (pyStripL (listGetD row 0 "").toList) <;> rfl
    · right
      unfold gh_rowEntry
      rw [if_neg h7, herr]

/-- When no row raises, the GH row fold computes exactly the SC fold. -/
theorem gh_parseRows_ok (fb : List Char → Option Date) :
    ∀ (rows : List (List String)) (out : List (Date × Rat)),
      (∀ row ∈ rows, RowSafe fb row) →
      gh_parseRows fb rows out = .ok (rows.foldl (twseRowFold fb) out) := by
  intro rows
  induction rows with
  | nil => intro out _; rfl
  | cons r rest ih =>
    intro out h
    have hr : RowSafe fb r := h r (List.mem_cons_self r rest)
    have hrest : ∀ row ∈ rest, RowSafe fb row := fun row hrow => h row (List.mem_cons_of_mem r hrow)
    rcases gh_rowEntry_cases fb r with hok | herr
    · cases hE : rowEntry fb r with
      | none =>
        rw [hE] at hok
        rw [gh_parseRows, hok, List.foldl_cons]
        rw [show twseRowFold fb out r = out by rw [twseRowFold, hE]]
        exact ih out hrest
      | some kv =>
        obtain ⟨k, v⟩ := kv
        rw [hE] at hok
        rw [gh_parseRows, hok, List.foldl_cons]
        rw [show twseRowFold fb out r = dinsert out k v by rw [twseRowFold, hE]]
        exact ih (dinsert out k v) hrest
    · exact absurd herr hr

theorem gh_parse_eq (fb : List Char → Option Date) (js : TwseJson)
    (h : ∀ row ∈ js.data, RowSafe fb row) :
    gh_parse_twse_close_map fb js = .ok (parse_twse_close_map fb js) :=
  gh_parseRows_ok fb js.data [] h

/-- Environments under which the GH revision raises no exception: no TWSE
query hits a network error, and every 200 response carries well-formed JSON
none of whose rows makes the GH parser raise. -/
def BenignA (env : SourceEnv) : Prop :=
  ∀ code d, env.aResp code d ≠ .netErr
    ∧ (∀ body, env.aResp code d = .status 200 body →
         ∃ js, body = some js ∧ ∀ row ∈ js.data, RowSafe env.fb row)

/-- Under a benign environment the GH TWSE consultation returns exactly the
SC consultation's lookup. -/
theorem benign_aLookup (env : SourceEnv) (hb : BenignA env) (code : String) (d : Date) :
    gh_aLookup env code d = .ok (alookup (monthTable env code d) d) := by
  obtain ⟨hnet, h200⟩ := hb code d
  cases hR : env.aResp code d with
  | netErr => exact absurd hR hnet
  | status c body =>
    by_cases hc : c = 200
    · subst hc
      obtain ⟨js, hjs, hrows⟩ := h200 body hR
      subst hjs
      have hparse := gh_parse_eq env.fb js hrows
      by_cases hdata : js.data = []
      · have hparse0 : parse_twse_close_map env.fb js = [] := by
          rw [parse_twse_close_map, hdata]
          rfl
        by_cases hstat : statOK js
        · simp [gh_aLookup, gh_fetch_twse_month_json, hR, hstat, hparse, hparse0,
                monthTable, fetch_twse_month_json, hdata, alookup]
        · simp [gh_aLookup, gh_fetch_twse_month_json, hR, hstat, hparse, hparse0,
                monthTable, fetch_twse_month_json, hdata, alookup]
      · by_cases hstat : statOK js
        · simp [gh_aLookup, gh_fetch_twse_month_json, hR, hstat, hparse,
                monthTable, fetch_twse_month_json, hdata]
        · simp [gh_aLookup, gh_fetch_twse_month_json, hR, hstat, hparse,
                monthTable, fetch_twse_month_json, hdata]
    · simp [gh_aLookup, gh_fetch_twse_month_json, hR, hc,
            monthTable, fetch_twse_month_json, alookup]

/-- Under a benign environment the two loops agree completely (result pair,
cache, traces), and the GH loop raises nothing. -/
theorem gh_loop_eq (env : SourceEnv) (hb : BenignA env) (code : String) :
    ∀ (n : Nat) (d : Date) (c : Cache),
      gh_loopAux env code n d c = .ok (loopAux env code n d c) := by
  intro n
  induction n with
  | zero => intro d c; rfl
  | succ m ih =>
    intro d c
    rw [gh_loopAux, benign_aLookup env hb code d]
    cases hA : alookup (monthTable env code d) d with
    | some p => simp [loopAux, hA]
    | none =>
      cases hB : alookup (getOrFetch env c d).snap code with
      | some p => simp [loopAux, hA, hB]
      | none => simp [loopAux, hA, hB, ih (predDate d) (getOrFetch env c d).cache]

/-! ### Digit-string round-trip lemmas -/

theorem digit_not_space (c : Char) (h : c.isDigit = true) : isSpaceChar c = false := by
  unfold isSpaceChar
  simp only [Bool.or_eq_false_iff, beq_eq_false_iff_ne, ne_eq]
  refine ⟨⟨⟨?_, ?_⟩, ?_⟩, ?_⟩ <;> intro hc <;> rw [hc] at h <;> exact absurd h (by decide)

theorem dropWhile_of_head_not (p : Char → Bool) (l : List Char)
    (h : ∀ c ∈ l, p c = false) : l.dropWhile p = l := by
  cases l with
  | nil => rfl
  | cons c t =>
    rw [List.dropWhile_cons, h c (List.mem_cons_self c t)]
    simp

theorem pyStripL_of_digits (l : List Char) (h : ∀ c ∈ l, c.isDigit = true) :
    pyStripL l = l := by
  unfold pyStripL
  rw [dropWhile_of_head_not _ l (fun c hc => digit_not_space c (h c hc))]
  rw [dropWhile_of_head_not _ l.reverse
      (fun c hc => digit_not_space c (h c (List.mem_reverse.mp hc)))]
  exact List.reverse_reverse l

theorem digitChar_isDigit (d : Nat) (h : d < 10) : (Nat.digitChar d).isDigit = true := by
  interval_cases d <;> decide

theorem digitChar_toNat (d : Nat) (h : d < 10) : (Nat.digitChar d).toNat - 48 = d := by
  interval_cases d <;> decide

theorem valOfDigits_append_one (l : List Char) (c : Char) :
    valOfDigits (l ++ [c]) = 10 * valOfDigits l + (c.toNat - 48) := by
  unfold valOfDigits
  rw [List.foldl_append]
  rfl

theorem valOfDigits_digitChars (L : List Nat) (h : ∀ d ∈ L, d < 10) :
    valOfDigits (L.reverse.map Nat.digitChar) = Nat.ofDigits 10 L := by
  induction L with
  | nil => rfl
  | cons d rest ih =>
    rw [List.reverse_cons, List.map_append, List.map_singleton, valOfDigits_append_one]
    rw [ih (fun x hx => h x (List.mem_cons_of_mem d hx))]
    rw [digitChar_toNat d (h d (List.mem_cons_self d rest))]
    rw [Nat.ofDigits_cons]
    omega

theorem valOfDigits_natDigitsStr (n : Nat) : valOfDigits (natDigitsStr n) = n := by
  rw [natDigitsStr_eq]
  rw [valOfDigits_digitChars _ (fun d hd => Nat.digits_lt_base (by norm_num) hd)]
  exact Nat.ofDigits_digits 10 n

theorem natDigitsStr_all_digits (n : Nat) :
    ∀ c ∈ natDigitsStr n, c.isDigit = true := by
  rw [natDigitsStr_eq]
  intro c hc
  obtain ⟨d, hd, rfl⟩ := List.mem_map.mp hc
  exact digitChar_isDigit d (Nat.digits_lt_base (by norm_num) (List.mem_reverse.mp hd))

theorem zfillL_eq_pad (k : Nat) (l : List Char) :
    zfillL k l = List.replicate (k - l.length) '0' ++ l := by
  unfold zfillL
  by_cases h : k ≤ l.length
  · rw [if_pos h, Nat.sub_eq_zero_of_le h]
    rfl
  · rw [if_neg h]

theorem valOfDigits_zeros_append (j : Nat) (l : List Char) :
    valOfDigits (List.replicate j '0' ++ l) = valOfDigits l := by
  induction j with
  | zero => rfl
  | succ m ih =>
    rw [List.replicate_succ, List.cons_append]
    unfold valOfDigits at ih ⊢
    simpa using ih

theorem zfill_natDigits_all_digits (k n : Nat) :
    ∀ c ∈ zfillL k (natDigitsStr n), c.isDigit = true := by
  rw [zfillL_eq_pad]
  intro c hc
  rcases List.mem_append.mp hc with hc1 | hc2
  · rw [List.eq_of_mem_replicate hc1]
    decide
  · exact natDigitsStr_all_digits n c hc2

theorem pyIntL_of_digits (l : List Char) (h : ∀ c ∈ l, c.isDigit = true) (hne : l ≠ []) :
    pyIntL l = some ((valOfDigits l : Nat) : Int) := by
  unfold pyIntL
  rw [pyStripL_of_digits l h]
  match l, hne with
  | c :: t, _ =>
    have hc : c.isDigit = true := h c (List.mem_cons_self c t)
    have h1 : ¬(c = '-') := by
      intro e
      rw [e] at hc
      exact absurd hc (by decide)
    have h2 : ¬(c = '+') := by
      intro e
      rw [e] at hc
      exact absurd hc (by decide)
    have hd : isDigitsL (c :: t) = true := by
      unfold isDigitsL
      simp only [List.isEmpty_cons, Bool.not_false, Bool.true_and]
      exact List.all_eq_true.mpr (fun x hx => h x hx)
    simp only [if_neg h1, if_neg h2, hd, if_true, if_false]
    simp

theorem pyIntL_zfill_natDigits (k n : Nat) (hk : 1 ≤ k) :
    pyIntL (zfillL k (natDigitsStr n)) = some (n : Int) := by
  have hne : zfillL k (natDigitsStr n) ≠ [] := by
    rw [zfillL_eq_pad]
    intro he
    rcases List.append_eq_nil.mp he with ⟨h1, h2⟩
    rw [List.replicate_eq_nil_iff] at h1
    have : (natDigitsStr n).length = 0 := by rw [h2]; rfl
    omega
  rw [pyIntL_of_digits _ (zfill_natDigits_all_digits k n) hne]
  rw [zfillL_eq_pad, valOfDigits_zeros_append, valOfDigits_natDigitsStr]

/-! ### Row-count lemma for the SC table parse -/

theorem foldl_twseRowFold_length (fb : List Char → Option Date) :
    ∀ (rows : List (List String)) (ks : List (Date × Rat)) (acc : List (Date × Rat)),
      rows.map (rowEntry fb) = ks.map some →
      (ks.map Prod.fst).Nodup →
      (∀ k ∈ ks.map Prod.fst, alookup acc k = none) →
      (rows.foldl (twseRowFold fb) acc).length = acc.length + rows.length := by
  intro rows
  induction rows with
  | nil =>
    intro ks acc hmap _ _
    simp
  | cons r rest ih =>
    intro ks acc hmap hnodup hfresh
    cases ks with
    | nil => simp at hmap
    | cons kv ktl =>
      simp only [List.map_cons, List.cons.injEq] at hmap
      obtain ⟨hr, hrest⟩ := hmap
      simp only [List.map_cons, List.nodup_cons] at hnodup
      obtain ⟨hknot, hknodup⟩ := hnodup
      have hfreshk : alookup acc kv.1 = none :=
        hfresh kv.1 (by simp)
      have hstep : twseRowFold fb acc r = dinsert acc kv.1 kv.2 := by
        rw [twseRowFold, hr]
      rw [List.foldl_cons, hstep]
      have hfresh2 : ∀ k ∈ ktl.map Prod.fst, alookup (dinsert acc kv.1 kv.2) k = none := by
        intro k hk
        have hkne : k ≠ kv.1 := by
          intro he
          rw [he] at hk
          exact hknot hk
        rw [alookup_dinsert_ne _ _ _ _ hkne]
        exact hfresh k (List.mem_cons_of_mem _ hk)
      rw [ih ktl (dinsert acc kv.1 kv.2) hrest hknodup hfresh2]
      rw [length_dinsert_new acc kv.1 kv.2 hfreshk]
      simp [List.length_cons]
      omega

/-! ### Row-level lemmas for the TPEx table build -/

theorem build_tpex_drop (cols : List String) (pre post : List (List String))
    (r : List String)
    (h : ∀ close_col, firstPresent cols closeAliases = some close_col →
        pyFloatL (pyStripL (replaceAllL ",".toList [] (cellAt cols r close_col).toList))
          = none) :
    build_tpex_code_close_map ⟨cols, pre ++ r :: post⟩
      = build_tpex_code_close_map ⟨cols, pre ++ post⟩ := by
  unfold build_tpex_code_close_map
  cases hcc : firstPresent cols codeAliases with
  | none => rfl
  | some code_col =>
    cases hlc : firstPresent cols closeAliases with
    | none => rfl
    | some close_col =>
      simp only
      rw [List.foldl_append, List.foldl_append, List.foldl_cons]
      rw [show tpexRowFold cols code_col close_col
            (pre.foldl (tpexRowFold cols code_col close_col) []) r
          = pre.foldl (tpexRowFold cols code_col close_col) [] by
        rw [tpexRowFold, h close_col hlc]]

theorem build_tpex_keep (cols : List String) (rows : List (List String))
    (r : List String) (code_col close_col : String) (v : Rat)
    (hcc : firstPresent cols codeAliases = some code_col)
    (hlc : firstPresent cols closeAliases = some close_col)
    (hv : pyFloatL (pyStripL (replaceAllL ",".toList [] (cellAt cols r close_col).toList))
        = some v) :
    alookup (build_tpex_code_close_map ⟨cols, rows ++ [r]⟩)
        (ensure_code (cellAt cols r code_col)) = some v := by
  unfold build_tpex_code_close_map
  simp only [hcc, hlc]
  rw [List.foldl_append, List.foldl_cons]
  rw [show tpexRowFold cols code_col close_col
        (rows.foldl (tpexRowFold cols code_col close_col) []) r
      = dinsert (rows.foldl (tpexRowFold cols code_col close_col) [])
          (ensure_code (cellAt cols r code_col)) v by
    rw [tpexRowFold, hv]]
  exact alookup_dinsert_self _ _ _

/-! ### Result-shape lemmas for the SC resolver -/

theorem loop_starts (env : SourceEnv) (code : String) (n : Nat) (d : Date) (c : Cache) :
    (loopAux env code (n + 1) d c).inspected ≠ [] := by
  cases hA : alookup (monthTable env code d) d with
  | some p => simp [loopAux, hA]
  | none =>
    cases hB : alookup (getOrFetch env c d).snap code with
    | some p => simp [loopAux, hA, hB]
    | none => simp [loopAux, hA, hB]

theorem loop_pairing (env : SourceEnv) (code : String) :
    ∀ (n : Nat) (d : Date) (c : Cache),
      ((loopAux env code n d c).price = none ∧ (loopAux env code n d c).asOf = none)
      ∨ (∃ p dd, (loopAux env code n d c).price = some p
               ∧ (loopAux env code n d c).asOf = some dd) := by
  intro n
  induction n with
  | zero => intro d c; exact Or.inl ⟨rfl, rfl⟩
  | succ m ih =>
    intro d c
    cases hA : alookup (monthTable env code d) d with
    | some p =>
      right
      exact ⟨p, d, by simp [loopAux, hA], by simp [loopAux, hA]⟩
    | none =>
      cases hB : alookup (getOrFetch env c d).snap code with
      | some p =>
        right
        exact ⟨p, d, by simp [loopAux, hA, hB], by simp [loopAux, hA, hB]⟩
      | none =>
        rcases ih (predDate d) (getOrFetch env c d).cache with ⟨hp, ha⟩ | ⟨p, dd, hp, ha⟩
        · left
          exact ⟨by simp [loopAux, hA, hB, hp], by simp [loopAux, hA, hB, ha]⟩
        · right
          exact ⟨p, dd, by simp [loopAux, hA, hB, hp], by simp [loopAux, hA, hB, ha]⟩

/-! ### Concrete environments used by witnesses and counterexamples -/

/-- Every source query fails at the network level. -/
def envNone : SourceEnv where
  aResp := fun _ _ => .netErr
  fb := fun _ => none
  bResp := fun _ => .netErr

/-- TWSE answers 200 with a body that is not well-formed JSON. -/
def envJson : SourceEnv where
  aResp := fun _ _ => .status 200 none
  fb := fun _ => none
  bResp := fun _ => .netErr

/-- TWSE answers 404 (body irrelevant); TPEx unreachable. -/
def env404 : SourceEnv where
  aResp := fun _ _ => .status 404 none
  fb := fun _ => none
  bResp := fun _ => .netErr

/-- Both sources have a price for code 2330 on 2025-09-08: TWSE says 990,
TPEx says 7. -/
def envBoth : SourceEnv where
  aResp := fun _ _ =>
    .status 200 (some ⟨none, [["2025/09/08", "x", "x", "x", "x", "x", "990"]]⟩)
  fb := fun _ => none
  bResp := fun _ => .status 200 "body" (some ⟨["Code", "Close"], [["2330", "7"]]⟩)

/-- A `dateutil` oracle that never parses (the witnesses only use `Y/M/D`
dates, which never reach the fallback). -/
def fbNone : List Char → Option Date := fun _ => none

/-! ### The claims -/

/-- C1: for every code, target date, maxBackdays `N ≥ 0` and entry cache,
`get_close_price_for_code` inspects the days `target-0 .. target-N` in that
order and never more than `N+1` of them (first conjunct: the inspected
trace is always an in-order prefix of that day list); and when neither the
TWSE month table nor the effective TPEx snapshot yields a price for any of
those days, it returns `(None, None)` after inspecting exactly the `N+1`
days (second conjunct). -/
theorem claim_C1 :
    (∀ (env : SourceEnv) (code : String) (target : Date) (N : Nat) (cache : Cache),
       ∃ k, k ≤ N + 1
         ∧ (get_close_price_for_code env code target N cache).inspected
             = (List.range k).map (fun i => backDay i target))
    ∧ (∀ (env : SourceEnv) (code : String) (target : Date) (N : Nat) (cache : Cache),
        (∀ i, i ≤ N →
            alookup (monthTable env (ensure_code code) (backDay i target)) (backDay i target)
              = none
            ∧ alookup (effSnap env cache (backDay i target)) (ensure_code code) = none) →
        (get_close_price_for_code env code target N cache).price = none
        ∧ (get_close_price_for_code env code target N cache).asOf = none
        ∧ (get_close_price_for_code env code target N cache).inspected
            = (List.range (N + 1)).map (fun i => backDay i target)) := by
  constructor
  · intro env code target N cache
    exact loop_trace env (ensure_code code) (N + 1) target cache
  · intro env code target N cache h
    exact loop_exhaust env (ensure_code code) (N + 1) target cache
      (fun i hi => h i (Nat.le_of_lt_succ hi))

theorem claim_C1_witness :
    (get_close_price_for_code envNone "2330" ⟨2025, 9, 8⟩ 1 []).price = none
    ∧ (get_close_price_for_code envNone "2330" ⟨2025, 9, 8⟩ 1 []).asOf = none
    ∧ (get_close_price_for_code envNone "2330" ⟨2025, 9, 8⟩ 1 []).inspected
        = (List.range 2).map (fun i => backDay i ⟨2025, 9, 8⟩) :=
  claim_C1.2 envNone "2330" ⟨2025, 9, 8⟩ 1 [] (fun _ _ => ⟨rfl, rfl⟩)

/-- C2: source priority and backfill order.  First conjunct: if resolution
reaches day `target-i` (both sources having missed on every earlier day)
and the TWSE month table contains a price `p` for that day, the resolver
returns `(p, target-i)` — even when the TPEx snapshot also holds a price
`q` for the code that day.  Second conjunct: the loop moves past a day only
after both the TWSE table and the effective TPEx snapshot missed on it. -/
theorem claim_C2 :
    (∀ (env : SourceEnv) (code : String) (target : Date) (N : Nat) (cache : Cache)
       (i : Nat) (p q : Rat), i ≤ N →
       (∀ j, j < i →
           alookup (monthTable env (ensure_code code) (backDay j target)) (backDay j target)
             = none
           ∧ alookup (effSnap env cache (backDay j target)) (ensure_code code) = none) →
       alookup (monthTable env (ensure_code code) (backDay i target)) (backDay i target)
         = some p →
       alookup (effSnap env cache (backDay i target)) (ensure_code code) = some q →
       (get_close_price_for_code env code target N cache).price = some p
       ∧ (get_close_price_for_code env code target N cache).asOf = some (backDay i target))
    ∧ (∀ (env : SourceEnv) (code : String) (target : Date) (N : Nat) (cache : Cache)
         (i : Nat),
        i + 1 < (get_close_price_for_code env code target N cache).inspected.length →
        alookup (monthTable env (ensure_code code) (backDay i target)) (backDay i target)
          = none
        ∧ alookup (effSnap env cache (backDay i target)) (ensure_code code) = none) := by
  constructor
  · intro env code target N cache i p q hiN hmiss hA _
    obtain ⟨c2, _, hp, ha⟩ :=
      loop_reach env (ensure_code code) i (N + 1) target cache
        (Nat.lt_succ_of_le hiN) hmiss
    rw [Nat.succ_sub hiN] at hp ha
    rw [loop_ahit env (ensure_code code) (N - i) (backDay i target) c2 p hA] at hp ha
    exact ⟨hp, ha⟩
  · intro env code target N cache i h
    exact loop_moveon env (ensure_code code) i (N + 1) target cache h

theorem claim_C2_witness :
    (get_close_price_for_code envBoth "2330" ⟨2025, 9, 8⟩ 15 []).price = some 990
    ∧ (get_close_price_for_code envBoth "2330" ⟨2025, 9, 8⟩ 15 []).asOf
        = some (backDay 0 ⟨2025, 9, 8⟩) :=
  claim_C2.1 envBoth "2330" ⟨2025, 9, 8⟩ 15 [] 0 990 7 (Nat.zero_le 15)
    (fun j hj => absurd hj (Nat.not_lt_zero j)) (by decide) (by decide)

/-- C3: cache discipline.  A date already cached — populated or empty — is
answered from the cache with no fetch and no cache change (conjunct 1); an
uncached date is fetched once and the outcome stored under that key
(conjunct 2), with a failed fetch stored as the empty snapshot
(conjunct 3); and over a whole resolver call (hence, by re-applying the
statement to the returned cache, over a whole batch) no date is fetched
twice, no date already present on entry is ever fetched, stored snapshots
survive unchanged, and each fetched date ends up cached (conjunct 4). -/
theorem claim_C3 :
    (∀ (env : SourceEnv) (cache : Cache) (day : Date) (s : Snapshot),
       alookup cache day = some s →
       getOrFetch env cache day = ⟨s, cache, false⟩)
    ∧ (∀ (env : SourceEnv) (cache : Cache) (day : Date),
        alookup cache day = none →
        getOrFetch env cache day
          = ⟨snapB env day, dinsert cache day (snapB env day), true⟩)
    ∧ (∀ (env : SourceEnv) (cache : Cache) (day : Date),
        alookup cache day = none → fetch_tpex_daily_csv env day = none →
        getOrFetch env cache day = ⟨[], dinsert cache day [], true⟩)
    ∧ (∀ (env : SourceEnv) (code : String) (target : Date) (N : Nat) (cache : Cache),
        (get_close_price_for_code env code target N cache).bFetched.Nodup
        ∧ (∀ d ∈ (get_close_price_for_code env code target N cache).bFetched,
             alookup cache d = none)
        ∧ (∀ d s, alookup cache d = some s →
             alookup (get_close_price_for_code env code target N cache).cache d = some s)
        ∧ (∀ d ∈ (get_close_price_for_code env code target N cache).bFetched,
             alookup (get_close_price_for_code env code target N cache).cache d
               = some (snapB env d))) := by
  refine ⟨getOrFetch_of_mem, getOrFetch_of_not_mem, ?_, ?_⟩
  · intro env cache day h1 h2
    have hsnap : snapB env day = [] := by
      rw [snapB, h2]
    rw [getOrFetch_of_not_mem env cache day h1, hsnap]
  · intro env code target N cache
    obtain ⟨hmono, hnodup, hnew, hcached⟩ :=
      loop_cacheinv env (ensure_code code) (N + 1) target cache
    exact ⟨hnodup, hnew, hmono, hcached⟩

theorem claim_C3_witness :
    getOrFetch envNone [(⟨2025, 9, 8⟩, [("0050", 3)])] ⟨2025, 9, 8⟩
      = ⟨[("0050", 3)], [(⟨2025, 9, 8⟩, [("0050", 3)])], false⟩
    ∧ getOrFetch envNone [] ⟨2025, 9, 8⟩ = ⟨[], dinsert [] ⟨2025, 9, 8⟩ [], true⟩ :=
  ⟨claim_C3.1 envNone [(⟨2025, 9, 8⟩, [("0050", 3)])] ⟨2025, 9, 8⟩ [("0050", 3)] (by decide),
   claim_C3.2.2.1 envNone [] ⟨2025, 9, 8⟩ rfl rfl⟩

/-- C4 counterexample: in the GH revision (`.github/scripts`), whose
`fetch_twse_month_json` has no `try/except`, a network error or a 200
response with a malformed JSON body escapes the client as an exception
instead of yielding `None` — refuting "no exception escapes the
component" for that revision. -/
theorem claim_C4_counterexample :
    gh_fetch_twse_month_json envNone "2330" ⟨2025, 9, 8⟩ = .error .connectionError
    ∧ gh_fetch_twse_month_json envJson "2330" ⟨2025, 9, 8⟩ = .error .jsonDecodeError :=
  ⟨rfl, rfl⟩

/-- C4 amended: in the SC revision every failure outcome (network error,
non-200, malformed JSON on 200) yields `None` and no exception; in the GH
revision only the non-200 outcome yields `None`, while a network error
raises the connection error and a malformed 200 body raises the JSON
decode error. -/
theorem claim_C4_amended :
    (∀ (env : SourceEnv) (code : String) (d : Date),
       env.aResp code d = .netErr → fetch_twse_month_json env code d = none)
    ∧ (∀ (env : SourceEnv) (code : String) (d : Date) (c : Nat) (body : Option TwseJson),
        env.aResp code d = .status c body → c ≠ 200 →
        fetch_twse_month_json env code d = none
        ∧ gh_fetch_twse_month_json env code d = .ok none)
    ∧ (∀ (env : SourceEnv) (code : String) (d : Date),
        env.aResp code d = .status 200 none →
        fetch_twse_month_json env code d = none
        ∧ gh_fetch_twse_month_json env code d = .error .jsonDecodeError)
    ∧ (∀ (env : SourceEnv) (code : String) (d : Date),
        env.aResp code d = .netErr →
        gh_fetch_twse_month_json env code d = .error .connectionError) := by
  refine ⟨?_, ?_, ?_, ?_⟩
  · intro env code d h
    rw [fetch_twse_month_json, h]
  · intro env code d c body h hc
    rw [fetch_twse_month_json, gh_fetch_twse_month_json, h]
    simp [hc]
  · intro env code d h
    rw [fetch_twse_month_json, gh_fetch_twse_month_json, h]
    exact ⟨rfl, rfl⟩
  · intro env code d h
    rw [gh_fetch_twse_month_json, h]

theorem claim_C4_witness :
    fetch_twse_month_json envNone "2330" ⟨2025, 9, 8⟩ = none
    ∧ fetch_twse_month_json env404 "2330" ⟨2025, 9, 8⟩ = none :=
  ⟨claim_C4_amended.1 envNone "2330" ⟨2025, 9, 8⟩ rfl,
   (claim_C4_amended.2.1 env404 "2330" ⟨2025, 9, 8⟩ 404 none rfl (by decide)).1⟩

/-- C5 counterexample: the GH revision's `parse_twse_close_map` raises
`ValueError` on a row whose slash-split date has 3 parts and a non-integer
year (`int(parts[0])` sits outside the `try`), refuting "never raises /
dropped silently" as stated over both revisions. -/
theorem claim_C5_counterexample :
    gh_parse_twse_close_map fbNone ⟨some "OK", [["a/1/2", "", "", "", "", "", "5.0"]]⟩
      = .error .valueError := rfl

/-- C5 amended, SC revision: a row is dropped exactly when it has fewer
than 7 fields, an unparsable date in field 0, or an unparsable close price
in field 6 (conjunct 1); one malformed row plus `N` valid rows with
pairwise-distinct dates parse to exactly `N` entries (conjunct 2).  GH
revision: on a row with at least 7 fields the parser raises exactly when
the stripped date splits into 3 slash-parts whose first is not an integer
(conjunct 3); otherwise it behaves like the SC parser. -/
theorem claim_C5_amended :
    (∀ (fb : List Char → Option Date) (row : List String),
       rowEntry fb row = none ↔
         (row.length < 7
          ∨ parseRowDate fb (pyStripL (listGetD row 0 "").toList) = none
          ∨ pyFloatL (pyStripL (replaceAllL ",".toList [] (listGetD row 6 "").toList))
              = none))
    ∧ (∀ (fb : List Char → Option Date) (st : Option String) (bad : List String)
         (rows : List (List String)) (ks : List (Date × Rat)),
        rowEntry fb bad = none →
        rows.map (rowEntry fb) = ks.map some →
        (ks.map Prod.fst).Nodup →
        (parse_twse_close_map fb ⟨st, bad :: rows⟩).length = rows.length)
    ∧ (∀ (fb : List Char → Option Date) (row : List String), 7 ≤ row.length →
        ((∃ e, gh_rowEntry fb row = .error e) ↔
          ((splitOnCharL '/' (pyStripL (listGetD row 0 "").toList)).length = 3
           ∧ pyIntL (listGetD (splitOnCharL '/' (pyStripL (listGetD row 0 "").toList)) 0 [])
               = none))) := by
  refine ⟨?_, ?_, ?_⟩
  · intro fb row
    unfold rowEntry
    by_cases h7 : row.length < 7
    · simp [h7]
    · simp only [if_neg h7]
      cases hD : parseRowDate fb (pyStripL (listGetD row 0 "").toList) with
      | none => simp [h7, hD]
      | some dt =>
        cases hF : pyFloatL (pyStripL (replaceAllL ",".toList [] (listGetD row 6 "").toList))
          with
        | none => simp [h7, hD, hF]
        | some v => simp [h7, hD, hF]
  · intro fb st bad rows ks hbad hmap hnodup
    rw [parse_twse_close_map]
    simp only [List.foldl_cons]
    rw [show twseRowFold fb [] bad = [] by rw [twseRowFold, hbad]]
    rw [foldl_twseRowFold_length fb rows ks [] hmap hnodup (fun _ _ => rfl)]
    simp
  · intro fb row h7
    have h7n : ¬row.length < 7 := by omega
    unfold gh_rowEntry
    rw [if_neg h7n]
    constructor
    · intro ⟨e, he⟩
      cases hD : gh_rowDate fb (pyStripL (listGetD row 0 "").toList) with
      | error e2 =>
        revert hD
        unfold gh_rowDate
        by_cases h3 : (splitOnCharL '/' (pyStripL (listGetD row 0 "").toList)).length = 3
        · rw [if_pos h3]
          cases h0 : pyIntL (listGetD (splitOnCharL '/' (pyStripL (listGetD row 0 "").toList)) 0 [])
            with
          | none => intro _; exact ⟨h3, rfl⟩
          | some y => intro hcon; simp at hcon
        · rw [if_neg h3]
          intro hcon
          simp at hcon
      | ok o =>
        rw [hD] at he
        cases o with
        | none => simp at he
        | some dt => simp at he
    · intro ⟨h3, h0⟩
      refine ⟨.valueError, ?_⟩
      rw [show gh_rowDate fb (pyStripL (listGetD row 0 "").toList) = .error .valueError by
        unfold gh_rowDate
        rw [if_pos h3, h0]]

theorem claim_C5_witness :
    (parse_twse_close_map fbNone
        ⟨none, [["x"], ["2025/09/08", "x", "x", "x", "x", "x", "990"]]⟩).length = 1 :=
  claim_C5_amended.2.1 fbNone none ["x"]
    [["2025/09/08", "x", "x", "x", "x", "x", "990"]] [(⟨2025, 9, 8⟩, 990)]
    (by decide) (by decide) (by decide)

/-- C6 counterexample: the row with the non-numeric code `"ABC"` and close
`"5.0"` is **not** excluded by `build_tpex_code_close_map` — it lands in the
snapshot under the unmodified key — refuting "a row whose code is not a
valid numeric stock code ... is excluded". -/
theorem claim_C6_counterexample :
    isDigitsL "ABC".toList = false
    ∧ alookup (build_tpex_code_close_map ⟨["Code", "Close"], [["ABC", "5.0"]]⟩) "ABC"
        = some 5 :=
  ⟨rfl, by decide⟩

/-- C6 amended: a row whose close price does not parse as a float is
excluded without disturbing the rest of the table (conjunct 1: deleting it
leaves the snapshot unchanged); a row whose close price parses is kept
under its `_ensure_code`-normalised key — numeric or not (conjunct 2). -/
theorem claim_C6_amended :
    (∀ (cols : List String) (pre post : List (List String)) (r : List String),
       (∀ close_col, firstPresent cols closeAliases = some close_col →
           pyFloatL (pyStripL (replaceAllL ",".toList [] (cellAt cols r close_col).toList))
             = none) →
       build_tpex_code_close_map ⟨cols, pre ++ r :: post⟩
         = build_tpex_code_close_map ⟨cols, pre ++ post⟩)
    ∧ (∀ (cols : List String) (rows : List (List String)) (r : List String)
         (code_col close_col : String) (v : Rat),
        firstPresent cols codeAliases = some code_col →
        firstPresent cols closeAliases = some close_col →
        pyFloatL (pyStripL (replaceAllL ",".toList [] (cellAt cols r close_col).toList))
          = some v →
        alookup (build_tpex_code_close_map ⟨cols, rows ++ [r]⟩)
            (ensure_code (cellAt cols r code_col)) = some v) :=
  ⟨build_tpex_drop, build_tpex_keep⟩

set_option maxHeartbeats 2000000 in
theorem claim_C6_witness :
    build_tpex_code_close_map ⟨["Code", "Close"], [["2330", "7"], ["9999", "zz"]]⟩
      = build_tpex_code_close_map ⟨["Code", "Close"], [["2330", "7"]]⟩
    ∧ alookup (build_tpex_code_close_map ⟨["Code", "Close"], [["2330", "7"]]⟩)
        (ensure_code "2330") = some 7 := by
  constructor
  · refine claim_C6_amended.1 ["Code", "Close"] [["2330", "7"]] [] ["9999", "zz"] ?_
    intro cc hcc
    have h2 : firstPresent ["Code", "Close"] closeAliases = some "Close" := by decide
    rw [h2] at hcc
    injection hcc with hcc
    rw [← hcc]
    decide
  · exact claim_C6_amended.2 ["Code", "Close"] [] ["2330", "7"] "Code" "Close" 7
      (by decide) (by decide) (by decide)

/-- C7 counterexample: the invalid code `"@@"` (not reducible to a numeric
identifier) is **not** rejected before the backfill loop: the SC resolver
enters the loop (day 2025-09-08 is inspected, one TPEx fetch is issued) and
returns the ordinary value `(None, None)` — there is no input-validation
rejection at all. -/
theorem claim_C7_counterexample :
    get_close_price_for_code envNone "@@" ⟨2025, 9, 8⟩ 0 []
      = ⟨none, none, [(⟨2025, 9, 8⟩, [])], [⟨2025, 9, 8⟩], [⟨2025, 9, 8⟩]⟩ := by
  decide

/-- C7 amended: the SC resolver performs no input validation and surfaces
no failure of any class: for **every** code (valid or not), target date,
backdays bound and cache, the backfill loop is entered (the inspected
trace is nonempty), and the call returns an ordinary value — either
`(None, None)` or `(some price, some asOfDate)`.  Source-level failures
are all absorbed before the resolver (its sources appear to it only as the
total functions `monthTable` and `snapB`). -/
theorem claim_C7_amended :
    ∀ (env : SourceEnv) (code : String) (target : Date) (N : Nat) (cache : Cache),
      (get_close_price_for_code env code target N cache).inspected ≠ []
      ∧ (((get_close_price_for_code env code target N cache).price = none
          ∧ (get_close_price_for_code env code target N cache).asOf = none)
         ∨ (∃ p d, (get_close_price_for_code env code target N cache).price = some p
                 ∧ (get_close_price_for_code env code target N cache).asOf = some d)) :=
  fun env code target N cache =>
    ⟨loop_starts env (ensure_code code) N target cache,
     loop_pairing env (ensure_code code) (N + 1) target cache⟩

/-- C8 counterexample: with `--overwrite-same-day` set, a non-null cell
(holding 1) is overwritten by a **backfilled** price (asOfDate 2025-09-06,
target 2025-09-08) — the fill step never consults `got_date`, refuting
"overwritten only ... for a same-day price". -/
theorem claim_C8_counterexample :
    (⟨2025, 9, 6⟩ : Date) ≠ (⟨2025, 9, 8⟩ : Date)
    ∧ fill_step true (some 1) (some 2) (some ⟨2025, 9, 6⟩) ⟨2025, 9, 8⟩ = (some 2, true) :=
  ⟨by decide, rfl⟩

/-- C8 amended: the fill step ignores `asOfDate` entirely.  A null resolver
price always leaves the cell unchanged; a non-null price fills a null cell;
and a non-null price overwrites a non-null cell exactly when
`overwrite_same_day` is set — same-day or not. -/
theorem claim_C8_amended :
    ∀ (ow : Bool) (gd : Option Date) (t : Date) (q v : Rat),
      (∀ old, fill_step ow old none gd t = (old, false))
      ∧ fill_step ow none (some v) gd t = (some v, true)
      ∧ fill_step true (some q) (some v) gd t = (some v, true)
      ∧ fill_step false (some q) (some v) gd t = (some q, false) :=
  fun ow gd t q v => ⟨fun old => rfl, rfl, rfl, rfl⟩

/-- C9: calendar conversion round-trip.  For every date with Gregorian year
`Y ≥ 1912`: the Minguo query string opens with the `%03d`-formatted year
field `Y - 1911`, that zero-padded field still parses (via the model of
Python `int`) back to `Y - 1911`, and adding 1911 recovers `Y`; and on the
SourceA side, a parsed year below 1911 is interpreted by adding 1911. -/
theorem claim_C9 :
    (∀ d : Date, 1912 ≤ d.year →
       pyInt (pyFmt03 (d.year - 1911)) = some (d.year - 1911)
       ∧ (d.year - 1911) + 1911 = d.year
       ∧ tpexDateParam d
           = pyFmt03 (d.year - 1911) ++ "/" ++ pyFmt02 d.month ++ "/" ++ pyFmt02 d.day)
    ∧ (∀ y : Int, y < 1911 → twseYearAdjust y = y + 1911) := by
  constructor
  · intro d hy
    refine ⟨?_, by omega, rfl⟩
    have hpos : ¬(d.year - 1911 < 0) := by omega
    rw [pyFmt03, if_neg hpos, pyInt]
    rw [show ((zfillL 3 (natDigitsStr (d.year - 1911).toNat)).asString).toList
          = zfillL 3 (natDigitsStr (d.year - 1911).toNat) from rfl]
    rw [pyIntL_zfill_natDigits 3 _ (by norm_num)]
    congr 1
    omega
  · intro y hy
    rw [twseYearAdjust, if_pos hy]

theorem claim_C9_witness :
    pyInt (pyFmt03 ((⟨2025, 9, 8⟩ : Date).year - 1911))
      = some ((⟨2025, 9, 8⟩ : Date).year - 1911)
    ∧ twseYearAdjust 114 = 114 + 1911 :=
  ⟨(claim_C9.1 ⟨2025, 9, 8⟩ (by decide)).1, claim_C9.2 114 (by decide)⟩

/-- C10 counterexample: on the same input and the same source outcomes (a
TWSE network error), the SC revision absorbs the failure and returns the
ordinary value `(None, None)` while the GH revision raises the connection
error — the two revisions do **not** have the same exception behaviour. -/
theorem claim_C10_counterexample :
    get_close_price_for_code envNone "2330" ⟨2025, 9, 8⟩ 0 []
      = ⟨none, none, [(⟨2025, 9, 8⟩, [])], [⟨2025, 9, 8⟩], [⟨2025, 9, 8⟩]⟩
    ∧ gh_get_close_price_for_code envNone "2330" ⟨2025, 9, 8⟩ 0 []
      = .error .connectionError :=
  ⟨by decide, rfl⟩

/-- C10 amended: under every benign environment — no TWSE network error,
every 200 response carries well-formed JSON, and no data row has a 3-part
date with a non-integer year — the two revisions' resolvers agree exactly
(same price, asOfDate, final cache and traces) and the GH revision raises
nothing; outside that class they differ in exception behaviour (see the
counterexample). -/
theorem claim_C10_amended :
    ∀ (env : SourceEnv), BenignA env →
      ∀ (code : String) (target : Date) (N : Nat) (cache : Cache),
        gh_get_close_price_for_code env code target N cache
          = .ok (get_close_price_for_code env code target N cache) :=
  fun env hb code target N cache =>
    gh_loop_eq env hb (ensure_code code) (N + 1) target cache

theorem claim_C10_witness :
    gh_get_close_price_for_code env404 "2330" ⟨2025, 9, 8⟩ 1 []
      = .ok (get_close_price_for_code env404 "2330" ⟨2025, 9, 8⟩ 1 []) := by
  refine claim_C10_amended env404 ?_ "2330" ⟨2025, 9, 8⟩ 1 []
  intro code d
  refine ⟨fun h => AResp.noConfusion h, fun body h => ?_⟩
  injection h with h1 h2
  exact absurd h1 (by decide)
